import Mathlib

/-
  Verification of the n6800 CPU core (src/core.py) against its specification.

  The source is an nMigen hardware description.  We embed it shallowly as a
  synchronous step function over an explicit CPU state: per clock tick, all
  combinational values are computed from the current state (data-in is supplied
  combinationally by the memory collaborator as a function of the address on
  the bus, per spec section 6), and all clocked (`m.d.ph1`) assignments are
  committed together to form the next state.  Where the Python source applies
  several clocked assignments to the same signal in one cycle, the last one
  wins; the embedding applies the corresponding record updates in the same
  order.

  The external ALU collaborator (alu8.py is not part of src/) is modelled as a
  parameter: a pure function of (function selector, operand1, operand2, old
  flag vector) returning (result, new flag vector), per spec section 6.  The
  flag register held by the ALU collaborator is kept as a `ccs` field of the
  CPU state; it changes exactly when the core dispatches an ALU function
  during a cycle (the default `NONE` selector dispatches nothing).
-/

namespace N6800

/-- 8-bit wraparound, as on the 8-bit signals of the core. -/
def w8 (n : Nat) : Nat := n % 256

/-- 16-bit wraparound, as on the 16-bit signals of the core. -/
def w16 (n : Nat) : Nat := n % 65536

/-- ALU function selectors used by core.py (`ALU8Func` of alu8.py, which is
not under src/; the constructor names are the ones core.py uses). -/
inductive ALU8Func where
  | NONE | LD | SUB | SBC | AND | EOR | ADC | ORA | ADD
  | COM | LSR | ROR | ASR | ASL | ROL | DEC | INC
  | SEC | CLC | SEV | CLV | SEI | CLI | TAP | TPA | SEZ | CLZ
  deriving DecidableEq

/-- Modelled from the spec: the external ALU collaborator (alu8.py is not
under src/).  Per spec section 6 it is a pure, total function of two 8-bit
operands and a function selector producing an 8-bit result and an 8-bit flag
vector; the previous flag vector is an input since most operations update only
some flag bits. -/
def ALUFn : Type := ALU8Func → Nat → Nat → Nat → Nat × Nat

/- Modelled from the spec: addressing-mode field values (ModeBits of
consts/consts.py, which is not under src/).  The values follow the 6800
opcode layout used throughout core.py: for the two-operand (ALU/STA) families
bits 4-5 are 00=immediate, 01=direct, 10=indexed, 11=extended; for the
read-modify-write (ALU2) family they are 00=accumulator A, 01=accumulator B,
10=indexed, 11=extended.  This is confirmed by the opcode patterns in core.py
(e.g. JMP "011-1110" decodes to indexed 0x6E and extended 0x7E) and by the
formal modules' mode switches. -/
namespace ModeBits

def A : Nat := 0

def B : Nat := 1

def IMMEDIATE : Nat := 0

def DIRECT : Nat := 1

def INDEXED : Nat := 2

def EXTENDED : Nat := 3

end ModeBits

/- Modelled from the spec: flag bit positions (Flags of consts/consts.py,
which is not under src/).  Spec section 3: the flag vector packs Carry,
Overflow, Zero, Negative, Interrupt-mask in that order, plus reserved bits. -/
namespace Flags

def C : Nat := 0

def V : Nat := 1

def Z : Nat := 2

def N : Nat := 3

def I : Nat := 4

end Flags

/-- Bit `k` of the flag vector `ccs`. -/
def flag (ccs k : Nat) : Bool := ccs / 2 ^ k % 2 = 1

/-- The registers and synchronous signals of the core (core.py `Core.__init__`).
`Addr`, `RW`, `VMA`, `Dout` are the bus-facing registers; `a`, `b`, `x`, `sp`,
`pc`, `instr`, `tmp8`, `tmp16` are the (reset-less) register file; `ccs` is the
flag vector held by the ALU collaborator; `reset_state` and `cycle` are the
reset sequencer and per-instruction cycle counter. -/
structure State where
  Addr : Nat
  RW : Bool
  VMA : Bool
  Dout : Nat
  a : Nat
  b : Nat
  x : Nat
  sp : Nat
  pc : Nat
  instr : Nat
  tmp8 : Nat
  tmp16 : Nat
  ccs : Nat
  reset_state : Nat
  cycle : Nat
  deriving DecidableEq

/-- Decoded addressing-mode field: `self.mode = instr[4:6]` (core.py line 163). -/
def mode (i : Nat) : Nat := i / 16 % 4

/-- branch_check (core.py lines 629-659): the 3-bit selector `instr[1:4]`
chooses a base condition over the flag vector, and the invert bit `instr[0]`
complements the result. -/
def branch_check (i ccs : Nat) : Bool :=
  let invert : Bool := i % 2 = 1
  let c := flag ccs Flags.C
  let v := flag ccs Flags.V
  let z := flag ccs Flags.Z
  let n := flag ccs Flags.N
  let cond : Bool :=
    if i / 2 % 8 = 0 then true                  -- BRA, BRN
    else if i / 2 % 8 = 1 then !(c || z)        -- BHI, BLS
    else if i / 2 % 8 = 2 then !c               -- BCC, BCS
    else if i / 2 % 8 = 3 then !z               -- BNE, BEQ
    else if i / 2 % 8 = 4 then !v               -- BVC, BVS
    else if i / 2 % 8 = 5 then !n               -- BPL, BMI
    else if i / 2 % 8 = 6 then !(n != v)        -- BGE, BLT
    else !(z || (n != v))                       -- BGT, BLE
  cond != invert

/-- The decode table of `Core.execute` (core.py lines 258-324), split out as a
pure function from opcode to handler.  Each case corresponds, in the same
priority order, to one `m.Case` pattern of the source; opcodes matching no
pattern decode to `illegal` (the `m.Default()` branch). -/
inductive Insn where
  | nop
  | tap
  | tpa
  | in_de_x
  | cl_se_v
  | cl_se_c
  | cl_se_i
  | br
  | alu2 (f : ALU8Func) (op1 op2 store : Bool)
  | jmp
  | alu (f : ALU8Func) (store : Bool)
  | sta
  | illegal
  deriving DecidableEq

/-- Opcode decode, translated from the `m.Switch(self.instr)` of
`Core.execute`.  The wildcard patterns are expressed through the value ranges
and low-nibble tests they denote. -/
def decode (i : Nat) : Insn :=
  if i = 0x01 then .nop                                    -- "00000001" NOP
  else if i = 0x06 then .tap                               -- "00000110" TAP
  else if i = 0x07 then .tpa                               -- "00000111" TPA
  else if i / 2 = 0x04 then .in_de_x                       -- "0000100-" INX/DEX
  else if i / 2 = 0x05 then .cl_se_v                       -- "0000101-" CLV/SEV
  else if i / 2 = 0x06 then .cl_se_c                       -- "0000110-" CLC/SEC
  else if i / 2 = 0x07 then .cl_se_i                       -- "0000111-" CLI/SEI
  else if i / 16 = 0x2 then .br                            -- "0010----" branches
  else if 0x40 ≤ i ∧ i < 0x80 then
    -- "01--xxxx": read-modify-write family, dispatched on the low nibble
    if i % 16 = 0x0 then .alu2 .SUB false true true        -- "01--0000" NEG
    else if i % 16 = 0x3 then .alu2 .COM false true true   -- "01--0011" COM
    else if i % 16 = 0x4 then .alu2 .LSR false true true   -- "01--0100" LSR
    else if i % 16 = 0x6 then .alu2 .ROR false true true   -- "01--0110" ROR
    else if i % 16 = 0x7 then .alu2 .ASR false true true   -- "01--0111" ASR
    else if i % 16 = 0x8 then .alu2 .ASL false true true   -- "01--1000" ASL
    else if i % 16 = 0x9 then .alu2 .ROL false true true   -- "01--1001" ROL
    else if i % 16 = 0xA then .alu2 .DEC false true true   -- "01--1010" DEC
    else if i % 16 = 0xC then .alu2 .INC false true true   -- "01--1100" INC
    else if i % 16 = 0xD then .alu2 .SUB true false false  -- "01--1101" TST
    else if i % 16 = 0xE then
      (if i.testBit 5 then .jmp else .illegal)             -- "011-1110" JMP
    else if i % 16 = 0xF then .alu2 .SUB true true true    -- "01--1111" CLR
    else .illegal
  else if 0x80 ≤ i ∧ i < 0x100 then
    -- "1---xxxx": ALU read family and STA, dispatched on the low nibble
    if i % 16 = 0x6 then .alu .LD true                     -- "1---0110" LDA
    else if i % 16 = 0x0 then .alu .SUB true               -- "1---0000" SUB
    else if i % 16 = 0x1 then .alu .SUB false              -- "1---0001" CMP
    else if i % 16 = 0x2 then .alu .SBC true               -- "1---0010" SBC
    else if i % 16 = 0x4 then .alu .AND true               -- "1---0100" AND
    else if i % 16 = 0x5 then .alu .AND false              -- "1---0101" BIT
    else if i % 16 = 0x7 then
      (if mode i ≠ 0 then .sta else .illegal)              -- "1--10111","1-100111" STA
    else if i % 16 = 0x8 then .alu .EOR true               -- "1---1000" EOR
    else if i % 16 = 0x9 then .alu .ADC true               -- "1---1001" ADC
    else if i % 16 = 0xA then .alu .ORA true               -- "1---1010" ORA
    else if i % 16 = 0xB then .alu .ADD true               -- "1---1011" ADD
    else .illegal
  else .illegal

/-- mode_immediate8 (core.py lines 661-677).  `s0` is the next state
accumulated so far, `s` the current (pre-edge) state, `din` the combinational
data-in.  Returns the updated next state and the combinational operand. -/
def mode_immediate8 (s0 s : State) (din : Nat) : State × Nat :=
  let operand := if s.cycle = 1 then din else s.tmp8
  if s.cycle = 1 then
    ({ s0 with tmp8 := din, pc := w16 (s.pc + 1), Addr := w16 (s.pc + 1),
               RW := true }, operand)
  else (s0, operand)

/-- mode_direct (core.py lines 679-696). -/
def mode_direct (s0 s : State) (din : Nat) : State × Nat :=
  let operand := if s.cycle = 1 then din else s.tmp16
  if s.cycle = 1 then
    ({ s0 with tmp16 := din, pc := w16 (s.pc + 1), Addr := w16 (s.pc + 1),
               RW := true }, operand)
  else (s0, operand)

/-- mode_indexed (core.py lines 698-723). -/
def mode_indexed (s0 s : State) (din : Nat) : State × Nat :=
  let operand := s.tmp16
  if s.cycle = 1 then
    ({ s0 with tmp16 := din, pc := w16 (s.pc + 1), Addr := w16 (s.pc + 1),
               RW := true, VMA := false }, operand)
  else if s.cycle = 2 then
    ({ s0 with tmp16 := w16 (s.tmp16 + s.x), VMA := false }, operand)
  else (s0, operand)

/-- mode_ext (core.py lines 725-748).  At cycle 1 only the high byte of
`tmp16` is written; at cycle 2 only the low byte. -/
def mode_ext (s0 s : State) (din : Nat) : State × Nat :=
  let operand := if s.cycle = 2 then din + s.tmp16 / 256 * 256 else s.tmp16
  if s.cycle = 1 then
    ({ s0 with tmp16 := din * 256 + s.tmp16 % 256, pc := w16 (s.pc + 1),
               Addr := w16 (s.pc + 1), RW := true }, operand)
  else if s.cycle = 2 then
    ({ s0 with tmp16 := s.tmp16 / 256 * 256 + din, pc := w16 (s.pc + 1) },
     operand)
  else (s0, operand)

/-- read_byte (core.py lines 326-342): at the given cycle, put `addrv` on the
address bus with read direction; the data is available combinationally on
data-in during the following cycle. -/
def read_byte (s0 s : State) (c addrv : Nat) : State :=
  if s.cycle = c then { s0 with Addr := addrv, RW := true } else s0

/-- The ALU handler (core.py lines 344-401): loads, compares, arithmetic and
logical operations with a single accumulator destination. -/
def ALU (alu : ALUFn) (f : ALU8Func) (store : Bool) (s0 s : State)
    (din : Nat) : State × Option Nat :=
  let bsel := s.instr.testBit 6
  if mode s.instr = ModeBits.DIRECT then
    let p := mode_direct s0 s din
    let s2 := read_byte p.1 s 1 p.2
    if s.cycle = 2 then
      let r := alu f (if bsel then s.b else s.a) din s.ccs
      let s3 := { s2 with ccs := w8 r.2 }
      let s4 := if store then
          (if bsel then { s3 with b := w8 r.1 } else { s3 with a := w8 r.1 })
        else s3
      (s4, some s.pc)
    else (s2, none)
  else if mode s.instr = ModeBits.EXTENDED then
    let p := mode_ext s0 s din
    let s2 := read_byte p.1 s 2 p.2
    if s.cycle = 3 then
      let r := alu f (if bsel then s.b else s.a) din s.ccs
      let s3 := { s2 with ccs := w8 r.2 }
      let s4 := if store then
          (if bsel then { s3 with b := w8 r.1 } else { s3 with a := w8 r.1 })
        else s3
      (s4, some s.pc)
    else (s2, none)
  else if mode s.instr = ModeBits.IMMEDIATE then
    let p := mode_immediate8 s0 s din
    if s.cycle = 2 then
      let r := alu f (if bsel then s.b else s.a) p.2 s.ccs
      let s3 := { p.1 with ccs := w8 r.2 }
      let s4 := if store then
          (if bsel then { s3 with b := w8 r.1 } else { s3 with a := w8 r.1 })
        else s3
      (s4, some s.pc)
    else (p.1, none)
  else
    let p := mode_indexed s0 s din
    let s2 := read_byte p.1 s 3 p.2
    if s.cycle = 4 then
      let r := alu f (if bsel then s.b else s.a) din s.ccs
      let s3 := { s2 with ccs := w8 r.2 }
      let s4 := if store then
          (if bsel then { s3 with b := w8 r.1 } else { s3 with a := w8 r.1 })
        else s3
      (s4, some s.pc)
    else (s2, none)

/-- The ALU2 handler (core.py lines 403-474): read-modify-write operations
(negate, complement, shifts, rotates, increment/decrement, clear, test). -/
def ALU2 (alu : ALUFn) (f : ALU8Func) (op1 op2 store : Bool) (s0 s : State)
    (din : Nat) : State × Option Nat :=
  if mode s.instr = ModeBits.A then
    let r := alu f (if op1 then s.a else 0) (if op2 then s.a else 0) s.ccs
    let s1 := { s0 with ccs := w8 r.2 }
    let s2 := if store then { s1 with a := w8 r.1 } else s1
    (s2, some s.pc)
  else if mode s.instr = ModeBits.B then
    let r := alu f (if op1 then s.b else 0) (if op2 then s.b else 0) s.ccs
    let s1 := { s0 with ccs := w8 r.2 }
    let s2 := if store then { s1 with b := w8 r.1 } else s1
    (s2, some s.pc)
  else if mode s.instr = ModeBits.EXTENDED then
    let p := mode_ext s0 s din
    let s2 := read_byte p.1 s 2 p.2
    if s.cycle = 3 then
      let r := alu f (if op1 then din else 0) (if op2 then din else 0) s.ccs
      ({ s2 with ccs := w8 r.2, tmp8 := w8 r.1, VMA := false, Addr := p.2,
                 RW := true }, none)
    else if s.cycle = 4 then
      let s3 := { s2 with Addr := p.2, Dout := s.tmp8, RW := false }
      (if store then s3 else { s3 with VMA := false }, none)
    else if s.cycle = 5 then (s2, some s.pc)
    else (s2, none)
  else
    let p := mode_indexed s0 s din
    let s2 := read_byte p.1 s 3 p.2
    if s.cycle = 4 then
      let r := alu f (if op1 then din else 0) (if op2 then din else 0) s.ccs
      ({ s2 with ccs := w8 r.2, tmp8 := w8 r.1, VMA := false, Addr := p.2,
                 RW := true }, none)
    else if s.cycle = 5 then
      let s3 := { s2 with Addr := p.2, Dout := s.tmp8, RW := false }
      (if store then s3 else { s3 with VMA := false }, none)
    else if s.cycle = 6 then (s2, some s.pc)
    else (s2, none)

/-- The BR handler (core.py lines 476-489): at cycle 2 the branch target
(program counter already past the 2-byte instruction, plus the sign-extended
offset) is stored in `tmp16`; at cycle 3 the instruction ends with either the
target or the unmodified program counter. -/
def BR (s0 s : State) (din : Nat) : State × Option Nat :=
  let p := mode_immediate8 s0 s din
  let relative := if p.2 < 128 then p.2 else p.2 + 65280
  if s.cycle = 2 then
    ({ p.1 with tmp16 := w16 (s.pc + relative) }, none)
  else if s.cycle = 3 then
    (p.1, some (if branch_check s.instr s.ccs then s.tmp16 else s.pc))
  else (p.1, none)

/-- CL_SE_C (core.py lines 491-496). -/
def CL_SE_C (alu : ALUFn) (s0 s : State) : State × Option Nat :=
  if s.cycle = 1 then
    let f := if s.instr.testBit 0 then ALU8Func.SEC else ALU8Func.CLC
    ({ s0 with ccs := w8 (alu f 0 0 s.ccs).2 }, some s.pc)
  else (s0, none)

/-- CL_SE_V (core.py lines 498-503). -/
def CL_SE_V (alu : ALUFn) (s0 s : State) : State × Option Nat :=
  if s.cycle = 1 then
    let f := if s.instr.testBit 0 then ALU8Func.SEV else ALU8Func.CLV
    ({ s0 with ccs := w8 (alu f 0 0 s.ccs).2 }, some s.pc)
  else (s0, none)

/-- CL_SE_I (core.py lines 505-510). -/
def CL_SE_I (alu : ALUFn) (s0 s : State) : State × Option Nat :=
  if s.cycle = 1 then
    let f := if s.instr.testBit 0 then ALU8Func.SEI else ALU8Func.CLI
    ({ s0 with ccs := w8 (alu f 0 0 s.ccs).2 }, some s.pc)
  else (s0, none)

/-- IN_DE_X (core.py lines 512-528). -/
def IN_DE_X (alu : ALUFn) (s0 s : State) : State × Option Nat :=
  let dec := s.instr.testBit 0
  if s.cycle = 1 then
    ({ s0 with VMA := false, Addr := s.x,
               x := if dec then w16 (s.x + 65535) else w16 (s.x + 1) }, none)
  else if s.cycle = 2 then
    ({ s0 with VMA := false, Addr := s.x }, none)
  else if s.cycle = 3 then
    let f := if s.x = 0 then ALU8Func.SEZ else ALU8Func.CLZ
    ({ s0 with ccs := w8 (alu f 0 0 s.ccs).2 }, some s.pc)
  else (s0, none)

/-- JMP (core.py lines 530-541). -/
def JMP (s0 s : State) (din : Nat) : State × Option Nat :=
  if mode s.instr = ModeBits.EXTENDED then
    let p := mode_ext s0 s din
    if s.cycle = 2 then (p.1, some p.2) else (p.1, none)
  else if mode s.instr = ModeBits.INDEXED then
    let p := mode_indexed s0 s din
    if s.cycle = 3 then (p.1, some p.2) else (p.1, none)
  else (s0, none)

/-- STA (core.py lines 546-613). -/
def STA (alu : ALUFn) (s0 s : State) (din : Nat) : State × Option Nat :=
  let bsel := s.instr.testBit 6
  let val := if bsel then s.b else s.a
  if mode s.instr = ModeBits.DIRECT then
    let p := mode_direct s0 s din
    if s.cycle = 1 then
      ({ p.1 with VMA := false, Addr := p.2, RW := true }, none)
    else if s.cycle = 2 then
      ({ p.1 with Addr := p.2, Dout := val, RW := false }, none)
    else if s.cycle = 3 then
      ({ p.1 with ccs := w8 (alu .LD 0 val s.ccs).2 }, some s.pc)
    else (p.1, none)
  else if mode s.instr = ModeBits.EXTENDED then
    let p := mode_ext s0 s din
    if s.cycle = 2 then
      ({ p.1 with VMA := false, Addr := p.2, RW := true }, none)
    else if s.cycle = 3 then
      ({ p.1 with Addr := p.2, Dout := val, RW := false }, none)
    else if s.cycle = 4 then
      ({ p.1 with ccs := w8 (alu .LD 0 val s.ccs).2 }, some s.pc)
    else (p.1, none)
  else if mode s.instr = ModeBits.INDEXED then
    let p := mode_indexed s0 s din
    if s.cycle = 3 then
      ({ p.1 with VMA := false, Addr := p.2, RW := true }, none)
    else if s.cycle = 4 then
      ({ p.1 with Addr := p.2, Dout := val, RW := false }, none)
    else if s.cycle = 5 then
      ({ p.1 with ccs := w8 (alu .LD 0 val s.ccs).2 }, some s.pc)
    else (p.1, none)
  else (s0, none)

/-- TAP (core.py lines 615-620). -/
def TAP (alu : ALUFn) (s0 s : State) : State × Option Nat :=
  if s.cycle = 1 then
    ({ s0 with ccs := w8 (alu .TAP s.a 0 s.ccs).2 }, some s.pc)
  else (s0, none)

/-- TPA (core.py lines 622-627). -/
def TPA (alu : ALUFn) (s0 s : State) : State × Option Nat :=
  if s.cycle = 1 then
    let r := alu .TPA 0 0 s.ccs
    ({ s0 with a := w8 r.1, ccs := w8 r.2 }, some s.pc)
  else (s0, none)

/-- execute (core.py lines 258-324): dispatch the latched opcode to its
handler.  Returns the accumulated next state and, when the handler asserts
the end-of-instruction flag, the end-of-instruction address. -/
def execute (alu : ALUFn) (s0 s : State) (din : Nat) : State × Option Nat :=
  match decode s.instr with
  | .nop => (s0, some s.pc)
  | .tap => TAP alu s0 s
  | .tpa => TPA alu s0 s
  | .in_de_x => IN_DE_X alu s0 s
  | .cl_se_v => CL_SE_V alu s0 s
  | .cl_se_c => CL_SE_C alu s0 s
  | .cl_se_i => CL_SE_I alu s0 s
  | .br => BR s0 s din
  | .alu2 f op1 op2 store => ALU2 alu f op1 op2 store s0 s din
  | .jmp => JMP s0 s din
  | .alu f store => ALU alu f store s0 s din
  | .sta => STA alu s0 s din
  | .illegal => (s0, some s.pc)

/-- fetch (core.py lines 225-232). -/
def fetch (s0 s : State) (din : Nat) : State :=
  { s0 with instr := din, RW := true, pc := w16 (s.pc + 1),
            Addr := w16 (s.pc + 1) }

/-- One clock tick of the core (`Core.elaborate`, core.py lines 150-183):
defaults (`VMA := 1`, `cycle := cycle + 1`), then the reset handler, then
fetch/execute when the reset sequencer is terminal, then the
end-of-instruction handler, which overrides `pc`, `Addr`, `RW` and `cycle`
when the end flag is asserted.  `mem` is the memory collaborator supplying
data-in combinationally from the current address. -/
def step (alu : ALUFn) (mem : Nat → Nat) (s : State) : State :=
  let din := w8 (mem s.Addr)
  let s0 := { s with VMA := true, cycle := (s.cycle + 1) % 16 }
  let r : State × Option Nat :=
    if s.reset_state = 0 then
      ({ s0 with Addr := 0xFFFE, RW := true, reset_state := 1 }, none)
    else if s.reset_state = 1 then
      ({ s0 with Addr := 0xFFFF, RW := true, tmp8 := din, reset_state := 2 },
       none)
    else if s.reset_state = 2 then
      ({ s0 with reset_state := 3 }, some (w16 (s.tmp8 * 256 + din)))
    else if s.cycle = 0 then (fetch s0 s din, none)
    else execute alu s0 s din
  match r.2 with
  | some a => { r.1 with pc := w16 a, Addr := w16 a, RW := true, cycle := 0 }
  | none => r.1

/-- Iterated clock ticks. -/
def nsteps (alu : ALUFn) (mem : Nat → Nat) : Nat → State → State
  | 0, s => s
  | n + 1, s => nsteps alu mem n (step alu mem s)

/-- The state of the core right after a reset pulse: bus and sequencer
signals at their reset values, the reset-less register file arbitrary
(masked to its widths). -/
def resetInit (a b x sp pc instr tmp8 tmp16 ccs : Nat) : State :=
  { Addr := 0, RW := true, VMA := false, Dout := 0,
    a := w8 a, b := w8 b, x := w16 x, sp := w16 sp, pc := w16 pc,
    instr := w8 instr, tmp8 := w8 tmp8, tmp16 := w16 tmp16, ccs := w8 ccs,
    reset_state := 0, cycle := 0 }

/-- A bus transaction (spec section 3): an address, a data byte, and a
direction. -/
inductive BusEv where
  | read (addr data : Nat)
  | write (addr data : Nat)
  deriving DecidableEq

/-- The bus transaction carried during a cycle in state `s`: nothing when the
valid-address flag is deasserted (a dead cycle); otherwise a read of the byte
the memory collaborator supplies at the current address, or a write of the
data-out byte to the current address. -/
def busEv (mem : Nat → Nat) (s : State) : Option BusEv :=
  if s.VMA then
    if s.RW then some (.read s.Addr (w8 (mem s.Addr)))
    else some (.write s.Addr s.Dout)
  else none

/-- The bus transactions of `n` consecutive cycles starting from state `s`
(dead cycles dropped). -/
def events (alu : ALUFn) (mem : Nat → Nat) : Nat → State → List BusEv
  | 0, _ => []
  | n + 1, s => (busEv mem s).toList ++ events alu mem n (step alu mem s)

/-- Modelled from the spec: flag update of the ALU's load function (alu8.py is
not under src/).  Per spec sections 4.10 and 8, a load routes the value
through the ALU so that the Zero and Negative flags are set from the value
and the Overflow flag clears; the remaining flag bits are untouched. -/
def ldFlags (v c : Nat) : Nat :=
  c / 16 * 16 + (if 128 ≤ v % 256 then 8 else 0) + (if v % 256 = 0 then 4 else 0)
    + c % 2

/-- Modelled from the spec: a concrete ALU collaborator used to instantiate
witnesses.  Its load function follows `ldFlags`; every other function returns
result 0 and leaves the flag vector unchanged (the claims under verification
do not depend on them). -/
def specALU : ALUFn := fun f _ i2 c =>
  match f with
  | .LD => (w8 i2, ldFlags i2 c)
  | _ => (0, c)


/-- Concrete memory image for the C4 witness: JMP 0x5678 at address 0. -/
def memJmp : Nat → Nat := fun a =>
  if a = 0 then 0x7E else if a = 1 then 0x56 else if a = 2 then 0x78 else 0xEE

/-- A concrete fetch-entry state used by several witnesses. -/
def stRun : State :=
  { Addr := 0, RW := true, VMA := true, Dout := 0, a := 10, b := 11, x := 12,
    sp := 13, pc := 0, instr := 0, tmp8 := 0, tmp16 := 0, ccs := 0x15,
    reset_state := 3, cycle := 0 }

/-- Modelled from the spec: the eight base branch conditions of spec section
4.9, written from the spec table's wording (selector 000: always true; 001:
NOT (Carry OR Zero); 010: NOT Carry; 011: NOT Zero; 100: NOT Overflow; 101:
NOT Negative; 110: NOT (Negative XOR Overflow); 111: NOT (Zero OR (Negative
XOR Overflow))), for comparison against `branch_check`. -/
def specBranchBase (sel ccs : Nat) : Bool :=
  if sel = 0 then true
  else if sel = 1 then !(flag ccs Flags.C || flag ccs Flags.Z)
  else if sel = 2 then !(flag ccs Flags.C)
  else if sel = 3 then !(flag ccs Flags.Z)
  else if sel = 4 then !(flag ccs Flags.V)
  else if sel = 5 then !(flag ccs Flags.N)
  else if sel = 6 then !(flag ccs Flags.N != flag ccs Flags.V)
  else !(flag ccs Flags.Z || (flag ccs Flags.N != flag ccs Flags.V))

/-- Whether the handler of opcode `i` asserts the end-of-instruction flag at
execute cycle `c`.  This mirrors, case by case, the cycle guards in front of
each `end_instr` call of core.py's handlers; it is a pure function of the
opcode and cycle because every such guard only tests the opcode pattern, the
addressing-mode field and the cycle counter. -/
def endsAt (i c : Nat) : Bool :=
  match decode i with
  | .nop => true
  | .tap => c == 1
  | .tpa => c == 1
  | .in_de_x => c == 3
  | .cl_se_v => c == 1
  | .cl_se_c => c == 1
  | .cl_se_i => c == 1
  | .br => c == 3
  | .alu2 _ _ _ _ =>
      if mode i = ModeBits.A then true
      else if mode i = ModeBits.B then true
      else if mode i = ModeBits.EXTENDED then c == 5
      else c == 6
  | .jmp =>
      if mode i = ModeBits.EXTENDED then c == 2
      else if mode i = ModeBits.INDEXED then c == 3
      else false
  | .alu _ _ =>
      if mode i = ModeBits.DIRECT then c == 2
      else if mode i = ModeBits.EXTENDED then c == 3
      else if mode i = ModeBits.IMMEDIATE then c == 2
      else c == 4
  | .sta =>
      if mode i = ModeBits.DIRECT then c == 3
      else if mode i = ModeBits.EXTENDED then c == 4
      else if mode i = ModeBits.INDEXED then c == 5
      else false
  | .illegal => true

/-- The execute cycle at which the handler of opcode `i` ends the
instruction (the total cycle count of the instruction is this plus one,
counting the fetch cycle 0). -/
def endCycle (i : Nat) : Nat :=
  match decode i with
  | .nop => 1
  | .tap => 1
  | .tpa => 1
  | .in_de_x => 3
  | .cl_se_v => 1
  | .cl_se_c => 1
  | .cl_se_i => 1
  | .br => 3
  | .alu2 _ _ _ _ =>
      if mode i = ModeBits.A then 1
      else if mode i = ModeBits.B then 1
      else if mode i = ModeBits.EXTENDED then 5
      else 6
  | .jmp =>
      if mode i = ModeBits.EXTENDED then 2
      else if mode i = ModeBits.INDEXED then 3
      else 1
  | .alu _ _ =>
      if mode i = ModeBits.DIRECT then 2
      else if mode i = ModeBits.EXTENDED then 3
      else if mode i = ModeBits.IMMEDIATE then 2
      else 4
  | .sta =>
      if mode i = ModeBits.DIRECT then 3
      else if mode i = ModeBits.EXTENDED then 4
      else if mode i = ModeBits.INDEXED then 5
      else 1
  | .illegal => 1

/-- The state invariant maintained by every clock tick: the instruction latch
is 8 bits wide, the reset sequencer is a 2-bit value, during reset the cycle
counter tracks the reset state, and once the reset sequencer is terminal the
cycle counter never exceeds the current opcode's ending cycle and every
cycle-0 (fetch) state carries the program counter on the address bus. -/
def Inv (s : State) : Prop :=
  s.instr < 256 ∧ s.reset_state ≤ 3 ∧
  (s.reset_state < 3 → s.cycle = s.reset_state) ∧
  (s.reset_state = 3 →
    s.cycle ≤ endCycle s.instr ∧ (s.cycle = 0 → s.Addr = s.pc))

/-- The states reachable by clocking the core from some post-reset state
(arbitrary reset-less register file). -/
inductive Reachable (alu : ALUFn) (mem : Nat → Nat) : State → Prop where
  | init (a b x sp pc instr tmp8 tmp16 ccs : Nat) :
      Reachable alu mem (resetInit a b x sp pc instr tmp8 tmp16 ccs)
  | next {s : State} : Reachable alu mem s → Reachable alu mem (step alu mem s)

/-- Concrete memory image for branch witnesses: BRA with offset -2 at 0x1234,
as in the spec's worked example. -/
def memBra : Nat → Nat := fun a =>
  if a = 0x1234 then 0x20 else if a = 0x1235 then 0xFE else 0

/-- Concrete fetch-entry state at 0x1234 for the BRA witness. -/
def stBra : State :=
  { Addr := 0x1234, RW := true, VMA := true, Dout := 0, a := 1, b := 2, x := 3,
    sp := 4, pc := 0x1234, instr := 0, tmp8 := 0, tmp16 := 0, ccs := 0,
    reset_state := 3, cycle := 0 }

/-- Concrete mid-branch state (cycle 3) for the C2 witness. -/
def stBrCheck : State :=
  { Addr := 0x0102, RW := true, VMA := true, Dout := 0, a := 1, b := 2, x := 3,
    sp := 4, pc := 0x0102, instr := 0x22, tmp8 := 0xFE, tmp16 := 0x0100,
    ccs := 5, reset_state := 3, cycle := 3 }

/-- Concrete memory image for the C3 counterexample and witness: LDA A direct
(opcode 0x96) with zero-page address 0x12 holding 0x55. -/
def memLda : Nat → Nat := fun a =>
  if a = 0 then 0x96 else if a = 1 then 0x12 else if a = 0x12 then 0x55 else 0

/-- Concrete memory image for the C5 witness: STA A indexed (opcode 0xA7)
with offset 0x10. -/
def memSta : Nat → Nat := fun a =>
  if a = 0 then 0xA7 else if a = 1 then 0x10 else 0

/-- Concrete fetch-entry state for the C5 witness. -/
def stSta : State :=
  { stRun with x := 0x2000, a := 0x80 }

/-- Concrete memory image for the C8 witness: NOP everywhere. -/
def memNop : Nat → Nat := fun _ => 1

/-- Concrete memory image for the C7 witness: an opcode (0x02) matching no
decode entry. -/
def memIll : Nat → Nat := fun _ => 2

/-- The all-zero memory image, for the C9 and C10 witnesses. -/
def memZero : Nat → Nat := fun _ => 0

/-! ### Basic arithmetic and unfolding lemmas -/

theorem w16_mod_add (a k : Nat) : w16 (w16 a + k) = w16 (a + k) := by
  simp [w16, Nat.mod_add_mod]

theorem w8_lt (n : Nat) : w8 n < 256 := Nat.mod_lt _ (by norm_num)

theorem w16_lt (n : Nat) : w16 n < 65536 := Nat.mod_lt _ (by norm_num)

theorem nsteps_add (alu : ALUFn) (mem : Nat → Nat) (m k : Nat) (s : State) :
    nsteps alu mem (m + k) s = nsteps alu mem m (nsteps alu mem k s) := by
  induction k generalizing s with
  | zero => rfl
  | succ k ih => rw [Nat.add_succ]; exact ih (step alu mem s)

theorem nsteps_two (alu : ALUFn) (mem : Nat → Nat) (s : State) :
    nsteps alu mem 2 s = step alu mem (step alu mem s) := rfl

/-- A fetch step: with the reset sequencer terminal and the cycle counter 0,
the clock tick latches the opcode from data-in, increments the program
counter, and pre-asserts the address for cycle 1. -/
theorem step_fetch (alu : ALUFn) (mem : Nat → Nat) (s : State)
    (h0 : s.cycle = 0) (h1 : s.reset_state = 3) :
    step alu mem s =
      { s with VMA := true, RW := true, cycle := 1,
               instr := w8 (mem s.Addr), pc := w16 (s.pc + 1),
               Addr := w16 (s.pc + 1) } := by
  simp only [step]
  rw [if_neg (by omega), if_neg (by omega), if_neg (by omega), if_pos h0]
  simp [fetch, h0]

/-- An execute step: with the reset sequencer terminal and the cycle counter
nonzero, the clock tick runs the dispatched handler, and the end-of-instruction
handler overrides the program counter, address, direction and cycle counter
when the end flag is asserted. -/
theorem step_exec (alu : ALUFn) (mem : Nat → Nat) (s : State)
    (h0 : s.cycle ≠ 0) (h1 : s.reset_state = 3) :
    step alu mem s =
      (let r := execute alu { s with VMA := true, cycle := (s.cycle + 1) % 16 } s
        (w8 (mem s.Addr))
       match r.2 with
       | some av => { r.1 with pc := w16 av, Addr := w16 av, RW := true, cycle := 0 }
       | none => r.1) := by
  simp only [step]
  rw [if_neg (by omega), if_neg (by omega), if_neg (by omega), if_neg h0]

theorem events_zero (alu : ALUFn) (mem : Nat → Nat) (s : State) :
    events alu mem 0 s = [] := rfl

theorem events_succ (alu : ALUFn) (mem : Nat → Nat) (n : Nat) (s : State) :
    events alu mem (n + 1) s =
      (busEv mem s).toList ++ events alu mem n (step alu mem s) := rfl

theorem events_one (alu : ALUFn) (mem : Nat → Nat) (s : State) :
    events alu mem 1 s = (busEv mem s).toList := by
  rw [(rfl : (1 : Nat) = 0 + 1), events_succ, events_zero, List.append_nil]

theorem events_two (alu : ALUFn) (mem : Nat → Nat) (s : State) :
    events alu mem 2 s =
      (busEv mem s).toList ++ events alu mem 1 (step alu mem s) := by
  rw [(rfl : (2 : Nat) = 1 + 1), events_succ]

theorem events_three (alu : ALUFn) (mem : Nat → Nat) (s : State) :
    events alu mem 3 s =
      (busEv mem s).toList ++ events alu mem 2 (step alu mem s) := by
  rw [(rfl : (3 : Nat) = 2 + 1), events_succ]

theorem events_four (alu : ALUFn) (mem : Nat → Nat) (s : State) :
    events alu mem 4 s =
      (busEv mem s).toList ++ events alu mem 3 (step alu mem s) := by
  rw [(rfl : (4 : Nat) = 3 + 1), events_succ]

theorem events_five (alu : ALUFn) (mem : Nat → Nat) (s : State) :
    events alu mem 5 s =
      (busEv mem s).toList ++ events alu mem 4 (step alu mem s) := by
  rw [(rfl : (5 : Nat) = 4 + 1), events_succ]

/-! ### C4: extended-mode JMP -/

/-- C4: for every extended-mode JMP instruction (opcode 0x7E is the only
opcode decoding to the jump handler in extended mode), exactly two memory
reads occur, at pc+1 and pc+2, zero writes occur, the post-execution program
counter equals the big-endian combination (first byte high, second byte low)
of the two bytes read, and the accumulators, index register, stack pointer
and flag vector are unchanged; the instruction ends at cycle 2, with no
memory read of a destination value (the two operand reads are the only bus
transactions after the fetch). -/
theorem extended_jmp_spec (alu : ALUFn) (mem : Nat → Nat) (s : State)
    (h0 : s.cycle = 0) (h1 : s.reset_state = 3) (h2 : s.Addr = s.pc)
    (hop : w8 (mem s.pc) = 0x7E) :
    events alu mem 2 (step alu mem s) =
      [.read (w16 (s.pc + 1)) (w8 (mem (w16 (s.pc + 1)))),
       .read (w16 (s.pc + 2)) (w8 (mem (w16 (s.pc + 2))))]
    ∧ (nsteps alu mem 3 s).pc =
        w8 (mem (w16 (s.pc + 1))) * 256 + w8 (mem (w16 (s.pc + 2)))
    ∧ (nsteps alu mem 3 s).cycle = 0
    ∧ (nsteps alu mem 2 s).cycle = 2
    ∧ (nsteps alu mem 3 s).Addr = (nsteps alu mem 3 s).pc
    ∧ (nsteps alu mem 3 s).a = s.a ∧ (nsteps alu mem 3 s).b = s.b
    ∧ (nsteps alu mem 3 s).x = s.x ∧ (nsteps alu mem 3 s).sp = s.sp
    ∧ (nsteps alu mem 3 s).ccs = s.ccs := by
  have hdec : decode 0x7E = Insn.jmp := by decide
  have e1 : step alu mem s =
      { s with VMA := true, RW := true, cycle := 1,
               instr := 0x7E, pc := w16 (s.pc + 1), Addr := w16 (s.pc + 1) } := by
    rw [step_fetch alu mem s h0 h1, h2, hop]
  set b1 := w8 (mem (w16 (s.pc + 1))) with hb1
  set b2 := w8 (mem (w16 (s.pc + 2))) with hb2
  have e2 : step alu mem (step alu mem s) =
      { s with VMA := true, RW := true, cycle := 2, instr := 0x7E,
               tmp16 := b1 * 256 + s.tmp16 % 256,
               pc := w16 (s.pc + 2), Addr := w16 (s.pc + 2) } := by
    rw [e1, step_exec]
    · simp [execute, hdec, JMP, mode, mode_ext, ModeBits.EXTENDED, ModeBits.INDEXED,
            w16_mod_add, Nat.add_assoc]
    · simp
    · simpa using h1
  have hd1 : (b1 * 256 + s.tmp16 % 256) / 256 = b1 := by
    have := Nat.mod_lt s.tmp16 (show 0 < 256 by norm_num)
    omega
  have e3 : step alu mem (step alu mem (step alu mem s)) =
      { s with VMA := true, RW := true, cycle := 0, instr := 0x7E,
               tmp16 := b1 * 256 + b2,
               pc := w16 (b2 + b1 * 256), Addr := w16 (b2 + b1 * 256) } := by
    rw [e2, step_exec]
    · simp [execute, hdec, JMP, mode, mode_ext, ModeBits.EXTENDED, ModeBits.INDEXED,
            w16_mod_add, hd1]
    · simp
    · simpa using h1
  have hn : nsteps alu mem 3 s = step alu mem (step alu mem (step alu mem s)) := rfl
  have hn2 : nsteps alu mem 2 s = step alu mem (step alu mem s) := rfl
  have hpcv : w16 (b2 + b1 * 256) = b1 * 256 + b2 := by
    have := w8_lt (mem (w16 (s.pc + 1)))
    have := w8_lt (mem (w16 (s.pc + 2)))
    rw [w16, Nat.mod_eq_of_lt] <;> omega
  refine ⟨?_, ?_, ?_, ?_, ?_, ?_, ?_, ?_, ?_, ?_⟩
  · rw [events_two, events_one, e2, e1]
    simp [busEv]
  · rw [hn, e3]; simpa using hpcv
  · rw [hn, e3]
  · rw [hn2, e2]
  · rw [hn, e3]
  · rw [hn, e3]
  · rw [hn, e3]
  · rw [hn, e3]
  · rw [hn, e3]
  · rw [hn, e3]

theorem extended_jmp_spec_witness :
    events specALU memJmp 2 (step specALU memJmp stRun) =
      [.read (w16 (stRun.pc + 1)) (w8 (memJmp (w16 (stRun.pc + 1)))),
       .read (w16 (stRun.pc + 2)) (w8 (memJmp (w16 (stRun.pc + 2))))]
    ∧ (nsteps specALU memJmp 3 stRun).pc =
        w8 (memJmp (w16 (stRun.pc + 1))) * 256 + w8 (memJmp (w16 (stRun.pc + 2)))
    ∧ (nsteps specALU memJmp 3 stRun).cycle = 0
    ∧ (nsteps specALU memJmp 2 stRun).cycle = 2
    ∧ (nsteps specALU memJmp 3 stRun).Addr = (nsteps specALU memJmp 3 stRun).pc
    ∧ (nsteps specALU memJmp 3 stRun).a = stRun.a
    ∧ (nsteps specALU memJmp 3 stRun).b = stRun.b
    ∧ (nsteps specALU memJmp 3 stRun).x = stRun.x
    ∧ (nsteps specALU memJmp 3 stRun).sp = stRun.sp
    ∧ (nsteps specALU memJmp 3 stRun).ccs = stRun.ccs :=
  extended_jmp_spec specALU memJmp stRun (by decide) (by decide) (by decide)
    (by decide)


/-! ### C1: reset sequence -/

/-- C1: on every reset pulse (a state with the reset sequencer at 0 and the
bus signals at their reset values, the register file arbitrary), the bus
issues exactly two reads, first at 0xFFFE and then at 0xFFFF, and execution
starts with the program counter equal to the 16-bit value whose high byte is
the byte read at 0xFFFE and whose low byte is the byte read at 0xFFFF;
end-of-instruction is invoked with that vector as the next fetch address
(the address bus carries it into the cycle-0 fetch state). -/
theorem reset_vector_spec (alu : ALUFn) (mem : Nat → Nat)
    (a b x sp pc instr tmp8 tmp16 ccs : Nat) :
    events alu mem 3 (resetInit a b x sp pc instr tmp8 tmp16 ccs) =
      [.read 0xFFFE (w8 (mem 0xFFFE)), .read 0xFFFF (w8 (mem 0xFFFF))]
    ∧ (nsteps alu mem 3 (resetInit a b x sp pc instr tmp8 tmp16 ccs)).pc =
        w8 (mem 0xFFFE) * 256 + w8 (mem 0xFFFF)
    ∧ (nsteps alu mem 3 (resetInit a b x sp pc instr tmp8 tmp16 ccs)).Addr =
        w8 (mem 0xFFFE) * 256 + w8 (mem 0xFFFF)
    ∧ (nsteps alu mem 3 (resetInit a b x sp pc instr tmp8 tmp16 ccs)).cycle = 0
    ∧ (nsteps alu mem 3 (resetInit a b x sp pc instr tmp8 tmp16 ccs)).reset_state = 3 := by
  set s0 := resetInit a b x sp pc instr tmp8 tmp16 ccs with hs0
  have e1 : step alu mem s0 =
      { s0 with VMA := true, cycle := 1, Addr := 0xFFFE, RW := true,
                reset_state := 1 } := by
    simp [step, hs0, resetInit]
  have e2 : step alu mem (step alu mem s0) =
      { s0 with VMA := true, cycle := 2, Addr := 0xFFFF, RW := true,
                tmp8 := w8 (mem 0xFFFE), reset_state := 2 } := by
    rw [e1]; simp [step, hs0, resetInit]
  have hv : w16 (w8 (mem 0xFFFE) * 256 + w8 (mem 0xFFFF)) =
      w8 (mem 0xFFFE) * 256 + w8 (mem 0xFFFF) := by
    have := w8_lt (mem 0xFFFE)
    have := w8_lt (mem 0xFFFF)
    rw [w16, Nat.mod_eq_of_lt]
    omega
  have e3 : step alu mem (step alu mem (step alu mem s0)) =
      { s0 with VMA := true, cycle := 0, Addr := w8 (mem 0xFFFE) * 256 + w8 (mem 0xFFFF),
                RW := true, tmp8 := w8 (mem 0xFFFE), reset_state := 3,
                pc := w8 (mem 0xFFFE) * 256 + w8 (mem 0xFFFF) } := by
    rw [e2]; simp [step, hs0, resetInit, w16_mod_add, hv]
  have hn : nsteps alu mem 3 s0 = step alu mem (step alu mem (step alu mem s0)) := rfl
  refine ⟨?_, ?_, ?_, ?_, ?_⟩
  · rw [events_three, events_two, events_one, e2, e1]
    simp [busEv, hs0, resetInit]
  · rw [hn, e3]
  · rw [hn, e3]
  · rw [hn, e3]
  · rw [hn, e3]


/-! ### C2: branch decision -/

theorem decode_br (i : Nat) (h : i / 16 = 2) : decode i = .br := by
  unfold decode
  rw [if_neg (by omega), if_neg (by omega), if_neg (by omega), if_neg (by omega),
      if_neg (by omega), if_neg (by omega), if_neg (by omega), if_pos h]

theorem w16_idem (n : Nat) : w16 (w16 n) = w16 n := by
  simp [w16, Nat.mod_mod]

/-- C2: for every branch opcode (pattern 0010xxxx) and every flag vector, the
branch-taken decision of `branch_check` equals the base condition selected by
instruction bits 3..1 from the spec's eight-entry table, XORed with the invert
bit (instruction bit 0); and at the branch handler's final cycle (cycle 3) the
instruction ends with the precomputed target in `tmp16` when taken and with
the unmodified program counter otherwise. -/
theorem branch_decision_spec (alu : ALUFn) (mem : Nat → Nat) (i ccs : Nat)
    (s : State) (_hbr : i / 16 = 2) (hs : s.instr / 16 = 2)
    (h1 : s.reset_state = 3) (h3 : s.cycle = 3) :
    branch_check i ccs = ((specBranchBase (i / 2 % 8) ccs) != (decide (i % 2 = 1)))
    ∧ (step alu mem s).pc =
        w16 (if branch_check s.instr s.ccs then s.tmp16 else s.pc)
    ∧ (step alu mem s).cycle = 0
    ∧ (step alu mem s).Addr = (step alu mem s).pc := by
  have h8 : i / 2 % 8 = 0 ∨ i / 2 % 8 = 1 ∨ i / 2 % 8 = 2 ∨ i / 2 % 8 = 3
      ∨ i / 2 % 8 = 4 ∨ i / 2 % 8 = 5 ∨ i / 2 % 8 = 6 ∨ i / 2 % 8 = 7 := by omega
  have hpart1 : branch_check i ccs =
      ((specBranchBase (i / 2 % 8) ccs) != (decide (i % 2 = 1))) := by
    rcases h8 with h|h|h|h|h|h|h|h <;> simp [branch_check, specBranchBase, h]
  have hdec := decode_br s.instr hs
  have e : step alu mem s =
      { s with VMA := true, RW := true, cycle := 0,
               pc := w16 (if branch_check s.instr s.ccs then s.tmp16 else s.pc),
               Addr := w16 (if branch_check s.instr s.ccs then s.tmp16 else s.pc) } := by
    rw [step_exec]
    · simp [execute, hdec, BR, mode_immediate8, h3]
    · simp [h3]
    · exact h1
  refine ⟨hpart1, ?_, ?_, ?_⟩ <;> rw [e]

/-! ### C6: BRA always taken, self-loop example -/

/-- C6: every branch opcode with condition-selector 000 and invert bit 0
(BRA, opcode 0x20) is always taken, for every flag vector; and with memory
containing 0x20 at 0x1234 and 0xFE (offset -2) at 0x1235 and the program
counter entering the instruction at 0x1234, the program counter after
completion equals 0x1234 again: the target is the program counter already
advanced past the 2-byte instruction plus the sign-extended offset. -/
theorem bra_always_taken_spec (alu : ALUFn) (mem : Nat → Nat) (i ccs : Nat)
    (dout av bv xv spv iv t8 t16 cc : Nat)
    (_hbr : i / 16 = 2) (hsel : i / 2 % 8 = 0) (hinv : i % 2 = 0)
    (hm1 : w8 (mem 0x1234) = 0x20) (hm2 : w8 (mem 0x1235) = 0xFE) :
    branch_check i ccs = true
    ∧ (nsteps alu mem 4
        { Addr := 0x1234, RW := true, VMA := true, Dout := dout, a := av,
          b := bv, x := xv, sp := spv, pc := 0x1234, instr := iv, tmp8 := t8,
          tmp16 := t16, ccs := cc, reset_state := 3, cycle := 0 }).pc = 0x1234
    ∧ (nsteps alu mem 4
        { Addr := 0x1234, RW := true, VMA := true, Dout := dout, a := av,
          b := bv, x := xv, sp := spv, pc := 0x1234, instr := iv, tmp8 := t8,
          tmp16 := t16, ccs := cc, reset_state := 3, cycle := 0 }).cycle = 0 := by
  have hpart1 : branch_check i ccs = true := by
    unfold branch_check
    simp [hsel, hinv]
  set s : State :=
    { Addr := 0x1234, RW := true, VMA := true, Dout := dout, a := av,
      b := bv, x := xv, sp := spv, pc := 0x1234, instr := iv, tmp8 := t8,
      tmp16 := t16, ccs := cc, reset_state := 3, cycle := 0 } with hst
  have hd20 : decode 0x20 = Insn.br := by decide
  have e1 : step alu mem s =
      { s with VMA := true, RW := true, cycle := 1, instr := 0x20,
               pc := 0x1235, Addr := 0x1235 } := by
    rw [step_fetch alu mem s rfl rfl]
    simp [hst, hm1, w16]
  have e2 : step alu mem (step alu mem s) =
      { s with VMA := true, RW := true, cycle := 2, instr := 0x20,
               tmp8 := 0xFE, pc := 0x1236, Addr := 0x1236 } := by
    rw [e1, step_exec]
    · simp [execute, hd20, BR, mode_immediate8, hm2, w16]
    · simp
    · rfl
  have e3 : step alu mem (step alu mem (step alu mem s)) =
      { s with VMA := true, cycle := 3, instr := 0x20, tmp8 := 0xFE,
               tmp16 := 0x1234, pc := 0x1236, Addr := 0x1236, RW := true } := by
    rw [e2, step_exec]
    · simp only [execute, hd20, BR, mode_immediate8]
      norm_num
      rw [show w16 (4662 + 65534) = 4660 from by norm_num [w16]]
    · simp
    · rfl
  have hbc : branch_check 0x20 cc = true := by
    unfold branch_check
    norm_num
  have e4 : step alu mem (step alu mem (step alu mem (step alu mem s))) =
      { s with VMA := true, cycle := 0, instr := 0x20, tmp8 := 0xFE,
               tmp16 := 0x1234, pc := 0x1234, Addr := 0x1234, RW := true } := by
    rw [e3, step_exec]
    · simp [execute, hd20, BR, mode_immediate8, hbc, w16]
    · simp
    · rfl
  have hn : nsteps alu mem 4 s = step alu mem (step alu mem (step alu mem (step alu mem s))) := rfl
  refine ⟨hpart1, ?_, ?_⟩ <;> rw [hn, e4]

/-! ### C7: unrecognized opcodes -/

/-- C7: every opcode matching no decode-table entry ends the instruction at
the first execute cycle using the current (post-fetch-increment) program
counter: after two ticks the core is back at a cycle-0 fetch with the program
counter advanced by exactly 1, the address bus carries it, the single bus
transaction after the fetch is a read (never a write), and no other register
changes. -/
theorem illegal_opcode_spec (alu : ALUFn) (mem : Nat → Nat) (s : State) (i : Nat)
    (h0 : s.cycle = 0) (h1 : s.reset_state = 3) (h2 : s.Addr = s.pc)
    (hop : w8 (mem s.pc) = i) (hill : decode i = .illegal) :
    (nsteps alu mem 2 s).cycle = 0
    ∧ (nsteps alu mem 2 s).pc = w16 (s.pc + 1)
    ∧ (nsteps alu mem 2 s).Addr = w16 (s.pc + 1)
    ∧ events alu mem 1 (step alu mem s) =
        [.read (w16 (s.pc + 1)) (w8 (mem (w16 (s.pc + 1))))]
    ∧ (nsteps alu mem 2 s).a = s.a ∧ (nsteps alu mem 2 s).b = s.b
    ∧ (nsteps alu mem 2 s).x = s.x ∧ (nsteps alu mem 2 s).sp = s.sp
    ∧ (nsteps alu mem 2 s).ccs = s.ccs ∧ (nsteps alu mem 2 s).tmp8 = s.tmp8
    ∧ (nsteps alu mem 2 s).tmp16 = s.tmp16 ∧ (nsteps alu mem 2 s).Dout = s.Dout := by
  have e1 : step alu mem s =
      { s with VMA := true, RW := true, cycle := 1,
               instr := i, pc := w16 (s.pc + 1), Addr := w16 (s.pc + 1) } := by
    rw [step_fetch alu mem s h0 h1, h2, hop]
  have e2 : step alu mem (step alu mem s) =
      { s with VMA := true, RW := true, cycle := 0,
               instr := i, pc := w16 (s.pc + 1), Addr := w16 (s.pc + 1) } := by
    rw [e1, step_exec]
    · simp [execute, hill, w16_idem]
    · simp
    · simpa using h1
  have hn : nsteps alu mem 2 s = step alu mem (step alu mem s) := rfl
  refine ⟨?_, ?_, ?_, ?_, ?_, ?_, ?_, ?_, ?_, ?_, ?_, ?_⟩
  · rw [hn, e2]
  · rw [hn, e2]
  · rw [hn, e2]
  · rw [events_one, e1]; simp [busEv]
  all_goals rw [hn, e2]


theorem branch_decision_spec_witness :
    branch_check 0x22 5 = ((specBranchBase (0x22 / 2 % 8) 5) != (decide (0x22 % 2 = 1)))
    ∧ (step specALU memBra stBrCheck).pc =
        w16 (if branch_check stBrCheck.instr stBrCheck.ccs then stBrCheck.tmp16
             else stBrCheck.pc)
    ∧ (step specALU memBra stBrCheck).cycle = 0
    ∧ (step specALU memBra stBrCheck).Addr = (step specALU memBra stBrCheck).pc :=
  branch_decision_spec specALU memBra 0x22 5 stBrCheck (by decide) (by decide)
    rfl rfl

theorem bra_always_taken_spec_witness :
    branch_check 0x20 7 = true
    ∧ (nsteps specALU memBra 4
        { Addr := 0x1234, RW := true, VMA := true, Dout := 0, a := 1,
          b := 2, x := 3, sp := 4, pc := 0x1234, instr := 0, tmp8 := 0,
          tmp16 := 0, ccs := 7, reset_state := 3, cycle := 0 }).pc = 0x1234
    ∧ (nsteps specALU memBra 4
        { Addr := 0x1234, RW := true, VMA := true, Dout := 0, a := 1,
          b := 2, x := 3, sp := 4, pc := 0x1234, instr := 0, tmp8 := 0,
          tmp16 := 0, ccs := 7, reset_state := 3, cycle := 0 }).cycle = 0 :=
  bra_always_taken_spec specALU memBra 0x20 7 0 1 2 3 4 0 0 0 7 (by decide)
    (by decide) (by decide) (by decide) (by decide)

theorem illegal_opcode_spec_witness :
    (nsteps specALU memIll 2 stRun).cycle = 0
    ∧ (nsteps specALU memIll 2 stRun).pc = w16 (stRun.pc + 1)
    ∧ (nsteps specALU memIll 2 stRun).Addr = w16 (stRun.pc + 1)
    ∧ events specALU memIll 1 (step specALU memIll stRun) =
        [.read (w16 (stRun.pc + 1)) (w8 (memIll (w16 (stRun.pc + 1))))]
    ∧ (nsteps specALU memIll 2 stRun).a = stRun.a
    ∧ (nsteps specALU memIll 2 stRun).b = stRun.b
    ∧ (nsteps specALU memIll 2 stRun).x = stRun.x
    ∧ (nsteps specALU memIll 2 stRun).sp = stRun.sp
    ∧ (nsteps specALU memIll 2 stRun).ccs = stRun.ccs
    ∧ (nsteps specALU memIll 2 stRun).tmp8 = stRun.tmp8
    ∧ (nsteps specALU memIll 2 stRun).tmp16 = stRun.tmp16
    ∧ (nsteps specALU memIll 2 stRun).Dout = stRun.Dout :=
  illegal_opcode_spec specALU memIll stRun 2 rfl rfl rfl (by decide) (by decide)


/-! ### C3: direct-mode ALU reads -/

/-- C3 (counterexample): for the direct-mode ALU-read instruction LDA A
direct (opcode 0x96 at address 0, zero-page address byte 0x12, data 0x55),
the instruction performs exactly two memory reads, not one: the operand byte
at pc+1 and the data byte at the zero-page address it names.  This refutes
the claim that exactly one memory read occurs. -/
theorem direct_alu_read_counterexample :
    events specALU memLda 2 (step specALU memLda stRun) =
      [.read 1 0x12, .read 0x12 0x55]
    ∧ (events specALU memLda 2 (step specALU memLda stRun)).length = 2
    ∧ ¬ (events specALU memLda 2 (step specALU memLda stRun)).length = 1 := by
  decide

/-- C3 (amended): for every direct-mode ALU-read instruction, the total
instruction cycle count is exactly 3 (cycles 0, 1, 2, returning to a cycle-0
fetch on the third tick), and exactly two memory reads occur: one at pc+1
returning the zero-page address byte, and one at that zero-page address
returning the operand. -/
theorem direct_alu_read_amended (alu : ALUFn) (mem : Nat → Nat) (s : State)
    (f : ALU8Func) (st : Bool) (i : Nat)
    (h0 : s.cycle = 0) (h1 : s.reset_state = 3) (h2 : s.Addr = s.pc)
    (hop : w8 (mem s.pc) = i) (hdec : decode i = .alu f st)
    (hm : mode i = ModeBits.DIRECT) :
    (nsteps alu mem 1 s).cycle = 1
    ∧ (nsteps alu mem 2 s).cycle = 2
    ∧ (nsteps alu mem 3 s).cycle = 0
    ∧ events alu mem 2 (step alu mem s) =
        [.read (w16 (s.pc + 1)) (w8 (mem (w16 (s.pc + 1)))),
         .read (w8 (mem (w16 (s.pc + 1)))) (w8 (mem (w8 (mem (w16 (s.pc + 1)))))) ] := by
  have e1 : step alu mem s =
      { s with VMA := true, RW := true, cycle := 1,
               instr := i, pc := w16 (s.pc + 1), Addr := w16 (s.pc + 1) } := by
    rw [step_fetch alu mem s h0 h1, h2, hop]
  have e2 : step alu mem (step alu mem s) =
      { s with VMA := true, RW := true, cycle := 2, instr := i,
               tmp16 := w8 (mem (w16 (s.pc + 1))), pc := w16 (s.pc + 2),
               Addr := w8 (mem (w16 (s.pc + 1))) } := by
    rw [e1, step_exec]
    · simp [execute, hdec, ALU, hm, mode_direct, read_byte, ModeBits.DIRECT,
            w16_mod_add, Nat.add_assoc]
    · simp
    · simpa using h1
  have hn1 : nsteps alu mem 1 s = step alu mem s := rfl
  have hn2 : nsteps alu mem 2 s = step alu mem (step alu mem s) := rfl
  have hn3 : nsteps alu mem 3 s = step alu mem (step alu mem (step alu mem s)) := rfl
  refine ⟨?_, ?_, ?_, ?_⟩
  · rw [hn1, e1]
  · rw [hn2, e2]
  · rw [hn3, e2, step_exec]
    · simp [execute, hdec, ALU, hm, mode_direct, read_byte, ModeBits.DIRECT]
    · simp
    · simpa using h1
  · rw [events_two, events_one, e2, e1]
    simp [busEv]

theorem direct_alu_read_amended_witness :
    (nsteps specALU memLda 1 stRun).cycle = 1
    ∧ (nsteps specALU memLda 2 stRun).cycle = 2
    ∧ (nsteps specALU memLda 3 stRun).cycle = 0
    ∧ events specALU memLda 2 (step specALU memLda stRun) =
        [.read (w16 (stRun.pc + 1)) (w8 (memLda (w16 (stRun.pc + 1)))),
         .read (w8 (memLda (w16 (stRun.pc + 1))))
           (w8 (memLda (w8 (memLda (w16 (stRun.pc + 1)))))) ] :=
  direct_alu_read_amended specALU memLda stRun .LD true 0x96 rfl rfl rfl
    (by decide) (by decide) (by decide)

/-! ### C8: NOP repetition -/

/-- C8: executing NOP (opcode 0x01) `n` times in succession changes only the
program counter, which advances by exactly 1 per executed NOP (each NOP takes
two ticks: fetch and execute); the accumulators, index register, stack
pointer, flag vector and both scratch registers are unchanged.  (The
instruction latch necessarily holds the fetched NOP opcode itself.) -/
theorem nop_repeat_spec (alu : ALUFn) (mem : Nat → Nat) (s : State) (n : Nat)
    (h0 : s.cycle = 0) (h1 : s.reset_state = 3) (h2 : s.Addr = s.pc)
    (hpc : s.pc < 65536)
    (hmem : ∀ k, k < n → w8 (mem (w16 (s.pc + k))) = 0x01) :
    (nsteps alu mem (2 * n) s).pc = w16 (s.pc + n)
    ∧ (nsteps alu mem (2 * n) s).Addr = w16 (s.pc + n)
    ∧ (nsteps alu mem (2 * n) s).cycle = 0
    ∧ (nsteps alu mem (2 * n) s).reset_state = 3
    ∧ (nsteps alu mem (2 * n) s).a = s.a ∧ (nsteps alu mem (2 * n) s).b = s.b
    ∧ (nsteps alu mem (2 * n) s).x = s.x ∧ (nsteps alu mem (2 * n) s).sp = s.sp
    ∧ (nsteps alu mem (2 * n) s).ccs = s.ccs
    ∧ (nsteps alu mem (2 * n) s).tmp8 = s.tmp8
    ∧ (nsteps alu mem (2 * n) s).tmp16 = s.tmp16 := by
  induction n generalizing s with
  | zero =>
    have : w16 (s.pc + 0) = s.pc := by
      simpa [w16] using Nat.mod_eq_of_lt hpc
    exact ⟨by simpa [nsteps] using this.symm, by simpa [nsteps, h2] using this.symm,
      by simpa [nsteps] using h0, by simpa [nsteps] using h1, rfl, rfl, rfl, rfl,
      rfl, rfl, rfl⟩
  | succ n ih =>
    have hm0 : w8 (mem s.pc) = 0x01 := by
      have h := hmem 0 (by omega)
      rwa [Nat.add_zero, w16, Nat.mod_eq_of_lt hpc] at h
    have hd : decode 0x01 = Insn.nop := by decide
    have e1 : step alu mem s =
        { s with VMA := true, RW := true, cycle := 1,
                 instr := 0x01, pc := w16 (s.pc + 1), Addr := w16 (s.pc + 1) } := by
      rw [step_fetch alu mem s h0 h1, h2, hm0]
    have e2 : step alu mem (step alu mem s) =
        { s with VMA := true, RW := true, cycle := 0,
                 instr := 0x01, pc := w16 (s.pc + 1), Addr := w16 (s.pc + 1) } := by
      rw [e1, step_exec]
      · simp [execute, hd, w16_idem]
      · simp
      · simpa using h1
    set s2 : State :=
      { s with VMA := true, RW := true, cycle := 0,
               instr := 0x01, pc := w16 (s.pc + 1), Addr := w16 (s.pc + 1) } with hs2
    have hns : nsteps alu mem (2 * (n + 1)) s
        = nsteps alu mem (2 * n) (step alu mem (step alu mem s)) := by
      rw [show 2 * (n + 1) = 2 * n + 2 by ring, nsteps_add, nsteps_two]
    have hmem2 : ∀ k, k < n → w8 (mem (w16 (s2.pc + k))) = 0x01 := by
      intro k hk
      have h := hmem (k + 1) (by omega)
      show w8 (mem (w16 (w16 (s.pc + 1) + k))) = 0x01
      rw [w16_mod_add, show s.pc + 1 + k = s.pc + (k + 1) by omega]
      exact h
    have ihs := ih s2 rfl h1 rfl (w16_lt _) hmem2
    have hfin : w16 (s2.pc + n) = w16 (s.pc + (n + 1)) := by
      show w16 (w16 (s.pc + 1) + n) = w16 (s.pc + (n + 1))
      rw [w16_mod_add, show s.pc + 1 + n = s.pc + (n + 1) by omega]
    rw [hns, e2]
    rw [hfin] at ihs
    exact ihs

theorem nop_repeat_spec_witness :
    (nsteps specALU memNop (2 * 3) stRun).pc = w16 (stRun.pc + 3)
    ∧ (nsteps specALU memNop (2 * 3) stRun).Addr = w16 (stRun.pc + 3)
    ∧ (nsteps specALU memNop (2 * 3) stRun).cycle = 0
    ∧ (nsteps specALU memNop (2 * 3) stRun).reset_state = 3
    ∧ (nsteps specALU memNop (2 * 3) stRun).a = stRun.a
    ∧ (nsteps specALU memNop (2 * 3) stRun).b = stRun.b
    ∧ (nsteps specALU memNop (2 * 3) stRun).x = stRun.x
    ∧ (nsteps specALU memNop (2 * 3) stRun).sp = stRun.sp
    ∧ (nsteps specALU memNop (2 * 3) stRun).ccs = stRun.ccs
    ∧ (nsteps specALU memNop (2 * 3) stRun).tmp8 = stRun.tmp8
    ∧ (nsteps specALU memNop (2 * 3) stRun).tmp16 = stRun.tmp16 :=
  nop_repeat_spec specALU memNop stRun 3 rfl rfl rfl (by decide)
    (fun _ _ => rfl)


/-! ### C5: indexed-mode store -/

theorem ldFlags_lt (v c : Nat) (hc : c < 256) : ldFlags v c < 256 := by
  unfold ldFlags
  split_ifs <;> omega

theorem flag_ldFlags_Z (v c : Nat) (hv : v < 256) :
    flag (ldFlags v c) Flags.Z = decide (v = 0) := by
  unfold flag ldFlags Flags.Z
  rw [Nat.mod_eq_of_lt hv]
  simp only [decide_eq_decide]
  norm_num
  split_ifs <;> omega

theorem flag_ldFlags_N (v c : Nat) (hv : v < 256) :
    flag (ldFlags v c) Flags.N = decide (128 ≤ v) := by
  unfold flag ldFlags Flags.N
  rw [Nat.mod_eq_of_lt hv]
  simp only [decide_eq_decide]
  norm_num
  split_ifs <;> omega

theorem flag_ldFlags_V (v c : Nat) (hv : v < 256) :
    flag (ldFlags v c) Flags.V = false := by
  unfold flag ldFlags Flags.V
  rw [Nat.mod_eq_of_lt hv]
  simp only [decide_eq_false_iff_not]
  norm_num
  split_ifs <;> omega

/-- C5: for every indexed-mode store instruction, exactly one memory read
occurs (the offset byte at pc+1) and exactly one write occurs; the write
address equals the index register plus the zero-extended offset byte modulo
2^16, the written value equals the selected accumulator's pre-execution value
(which is itself unchanged), the Zero and Negative flags are updated from
that value, and the Overflow flag is cleared.  The flag behaviour of the
ALU's load function is the spec-modelled `ldFlags` (alu8.py is not under
src/), assumed of the ALU collaborator through `hld`. -/
theorem indexed_sta_spec (alu : ALUFn) (mem : Nat → Nat) (s : State) (i : Nat)
    (hld : ∀ v c, (alu ALU8Func.LD 0 v c).2 = ldFlags v c)
    (h0 : s.cycle = 0) (h1 : s.reset_state = 3) (h2 : s.Addr = s.pc)
    (ha : s.a < 256) (hb : s.b < 256) (hcc : s.ccs < 256)
    (hop : w8 (mem s.pc) = i) (hdec : decode i = .sta)
    (hm : mode i = ModeBits.INDEXED) :
    events alu mem 5 (step alu mem s) =
      [.read (w16 (s.pc + 1)) (w8 (mem (w16 (s.pc + 1)))),
       .write (w16 (w8 (mem (w16 (s.pc + 1))) + s.x))
         (if i.testBit 6 then s.b else s.a)]
    ∧ (nsteps alu mem 6 s).cycle = 0
    ∧ (nsteps alu mem 6 s).a = s.a ∧ (nsteps alu mem 6 s).b = s.b
    ∧ (nsteps alu mem 6 s).x = s.x
    ∧ (nsteps alu mem 6 s).pc = w16 (s.pc + 2)
    ∧ flag (nsteps alu mem 6 s).ccs Flags.Z =
        decide ((if i.testBit 6 then s.b else s.a) = 0)
    ∧ flag (nsteps alu mem 6 s).ccs Flags.N =
        decide (128 ≤ (if i.testBit 6 then s.b else s.a))
    ∧ flag (nsteps alu mem 6 s).ccs Flags.V = false := by
  set off := w8 (mem (w16 (s.pc + 1))) with hoff
  set tgt := w16 (off + s.x) with htgt
  set val := if i.testBit 6 then s.b else s.a with hval
  have e1 : step alu mem s =
      { s with VMA := true, RW := true, cycle := 1,
               instr := i, pc := w16 (s.pc + 1), Addr := w16 (s.pc + 1) } := by
    rw [step_fetch alu mem s h0 h1, h2, hop]
  have e2 : step alu mem (step alu mem s) =
      { s with VMA := false, RW := true, cycle := 2, instr := i,
               tmp8 := s.tmp8, tmp16 := off, pc := w16 (s.pc + 2),
               Addr := w16 (s.pc + 2) } := by
    rw [e1, step_exec]
    · simp [execute, hdec, STA, hm, mode_indexed, ModeBits.DIRECT,
            ModeBits.EXTENDED, ModeBits.INDEXED, w16_mod_add, Nat.add_assoc, hoff]
    · simp
    · simpa using h1
  have e3 : step alu mem (step alu mem (step alu mem s)) =
      { s with VMA := false, RW := true, cycle := 3, instr := i,
               tmp16 := tgt, pc := w16 (s.pc + 2), Addr := w16 (s.pc + 2) } := by
    rw [e2, step_exec]
    · simp [execute, hdec, STA, hm, mode_indexed, ModeBits.DIRECT,
            ModeBits.EXTENDED, ModeBits.INDEXED, htgt]
    · simp
    · simpa using h1
  have e4 : nsteps alu mem 4 s =
      { s with VMA := false, RW := true, cycle := 4, instr := i,
               tmp16 := tgt, pc := w16 (s.pc + 2), Addr := tgt } := by
    show step alu mem (step alu mem (step alu mem (step alu mem s))) = _
    rw [e3, step_exec]
    · simp [execute, hdec, STA, hm, mode_indexed, ModeBits.DIRECT,
            ModeBits.EXTENDED, ModeBits.INDEXED]
    · simp
    · simpa using h1
  have e5 : nsteps alu mem 5 s =
      { s with VMA := true, RW := false, cycle := 5, instr := i,
               tmp16 := tgt, pc := w16 (s.pc + 2), Addr := tgt, Dout := val } := by
    show step alu mem (nsteps alu mem 4 s) = _
    rw [e4, step_exec]
    · simp [execute, hdec, STA, hm, mode_indexed, ModeBits.DIRECT,
            ModeBits.EXTENDED, ModeBits.INDEXED, hval]
    · simp
    · simpa using h1
  have e6 : nsteps alu mem 6 s =
      { s with VMA := true, RW := true, cycle := 0, instr := i,
               tmp16 := tgt, pc := w16 (s.pc + 2), Addr := w16 (s.pc + 2),
               Dout := val, ccs := w8 (ldFlags val s.ccs) } := by
    show step alu mem (nsteps alu mem 5 s) = _
    rw [e5, step_exec]
    · simp [execute, hdec, STA, hm, mode_indexed, ModeBits.DIRECT,
            ModeBits.EXTENDED, ModeBits.INDEXED, hval, hld, w16_idem]
    · simp
    · simpa using h1
  have hvlt : val < 256 := by
    rw [hval]; split_ifs <;> assumption
  have hccs6 : (nsteps alu mem 6 s).ccs = ldFlags val s.ccs := by
    rw [e6]
    show w8 (ldFlags val s.ccs) = ldFlags val s.ccs
    exact Nat.mod_eq_of_lt (ldFlags_lt val s.ccs hcc)
  refine ⟨?_, ?_, ?_, ?_, ?_, ?_, ?_, ?_, ?_⟩
  · rw [events_five, events_four, events_three, events_two, events_one]
    rw [show step alu mem (step alu mem (step alu mem (step alu mem (step alu mem s))))
        = nsteps alu mem 5 s from rfl]
    rw [show step alu mem (step alu mem (step alu mem (step alu mem s)))
        = nsteps alu mem 4 s from rfl]
    rw [e5, e4, e3, e2, e1]
    simp [busEv, htgt, hoff]
  · rw [e6]
  · rw [e6]
  · rw [e6]
  · rw [e6]
  · rw [e6]
  · rw [hccs6, flag_ldFlags_Z val s.ccs hvlt]
  · rw [hccs6, flag_ldFlags_N val s.ccs hvlt]
  · rw [hccs6, flag_ldFlags_V val s.ccs hvlt]


theorem indexed_sta_spec_witness :
    events specALU memSta 5 (step specALU memSta stSta) =
      [.read (w16 (stSta.pc + 1)) (w8 (memSta (w16 (stSta.pc + 1)))),
       .write (w16 (w8 (memSta (w16 (stSta.pc + 1))) + stSta.x))
         (if (0xA7 : Nat).testBit 6 then stSta.b else stSta.a)]
    ∧ (nsteps specALU memSta 6 stSta).cycle = 0
    ∧ (nsteps specALU memSta 6 stSta).a = stSta.a
    ∧ (nsteps specALU memSta 6 stSta).b = stSta.b
    ∧ (nsteps specALU memSta 6 stSta).x = stSta.x
    ∧ (nsteps specALU memSta 6 stSta).pc = w16 (stSta.pc + 2)
    ∧ flag (nsteps specALU memSta 6 stSta).ccs Flags.Z =
        decide ((if (0xA7 : Nat).testBit 6 then stSta.b else stSta.a) = 0)
    ∧ flag (nsteps specALU memSta 6 stSta).ccs Flags.N =
        decide (128 ≤ (if (0xA7 : Nat).testBit 6 then stSta.b else stSta.a))
    ∧ flag (nsteps specALU memSta 6 stSta).ccs Flags.V = false :=
  indexed_sta_spec specALU memSta stSta 0xA7 (fun _ _ => rfl) rfl rfl rfl
    (by decide) (by decide) (by decide) (by decide) (by decide) (by decide)


/-! ### C9, C10: reachable-state invariants -/

set_option maxRecDepth 4000 in
theorem endsAt_endCycle : ∀ i, i < 256 → endsAt i (endCycle i) = true := by decide

set_option maxRecDepth 4000 in
theorem endCycle_pos : ∀ i, i < 256 → 1 ≤ endCycle i := by decide

set_option maxRecDepth 4000 in
theorem endCycle_le : ∀ i, i < 256 → endCycle i ≤ 6 := by decide

/-- The end-of-instruction flag produced by `execute` depends only on the
opcode and the cycle counter, as computed by `endsAt`. -/
theorem execute_ends (alu : ALUFn) (s0 s : State) (din : Nat) :
    ((execute alu s0 s din).2).isSome = endsAt s.instr s.cycle := by
  unfold execute endsAt
  cases hd : decode s.instr <;> simp only [hd]
  case nop => simp
  case illegal => simp
  case tap => simp only [TAP]; split_ifs <;> simp_all
  case tpa => simp only [TPA]; split_ifs <;> simp_all
  case in_de_x => simp only [IN_DE_X]; split_ifs <;> simp_all
  case cl_se_v => simp only [CL_SE_V]; split_ifs <;> simp_all
  case cl_se_c => simp only [CL_SE_C]; split_ifs <;> simp_all
  case cl_se_i => simp only [CL_SE_I]; split_ifs <;> simp_all
  case br => simp only [BR]; split_ifs <;> simp_all
  case alu2 => simp only [ALU2]; split_ifs <;> simp_all
  case jmp => simp only [JMP]; split_ifs <;> simp_all
  case alu => simp only [ALU]; split_ifs <;> simp_all
  case sta => simp only [STA]; split_ifs <;> simp_all

/-- The addressing-mode resolvers and the read helper never touch the cycle
counter, the reset sequencer or the instruction latch of the accumulated next
state; these projection lemmas let the frame lemma below keep them folded. -/
theorem mode_immediate8_ctrl (s0 s : State) (din : Nat) :
    (mode_immediate8 s0 s din).1.cycle = s0.cycle
    ∧ (mode_immediate8 s0 s din).1.reset_state = s0.reset_state
    ∧ (mode_immediate8 s0 s din).1.instr = s0.instr := by
  unfold mode_immediate8
  split_ifs <;> exact ⟨rfl, rfl, rfl⟩

theorem mode_direct_ctrl (s0 s : State) (din : Nat) :
    (mode_direct s0 s din).1.cycle = s0.cycle
    ∧ (mode_direct s0 s din).1.reset_state = s0.reset_state
    ∧ (mode_direct s0 s din).1.instr = s0.instr := by
  unfold mode_direct
  split_ifs <;> exact ⟨rfl, rfl, rfl⟩

theorem mode_indexed_ctrl (s0 s : State) (din : Nat) :
    (mode_indexed s0 s din).1.cycle = s0.cycle
    ∧ (mode_indexed s0 s din).1.reset_state = s0.reset_state
    ∧ (mode_indexed s0 s din).1.instr = s0.instr := by
  unfold mode_indexed
  split_ifs <;> exact ⟨rfl, rfl, rfl⟩

theorem mode_ext_ctrl (s0 s : State) (din : Nat) :
    (mode_ext s0 s din).1.cycle = s0.cycle
    ∧ (mode_ext s0 s din).1.reset_state = s0.reset_state
    ∧ (mode_ext s0 s din).1.instr = s0.instr := by
  unfold mode_ext
  split_ifs <;> exact ⟨rfl, rfl, rfl⟩

theorem read_byte_ctrl (s0 s : State) (c a : Nat) :
    (read_byte s0 s c a).cycle = s0.cycle
    ∧ (read_byte s0 s c a).reset_state = s0.reset_state
    ∧ (read_byte s0 s c a).instr = s0.instr := by
  unfold read_byte
  split_ifs <;> exact ⟨rfl, rfl, rfl⟩

set_option maxHeartbeats 1600000 in
/-- `execute` never touches the cycle counter, the reset sequencer or the
instruction latch of the accumulated next state. -/
theorem execute_frame (alu : ALUFn) (s0 s : State) (din : Nat) :
    (execute alu s0 s din).1.cycle = s0.cycle
    ∧ (execute alu s0 s din).1.reset_state = s0.reset_state
    ∧ (execute alu s0 s din).1.instr = s0.instr := by
  have him := mode_immediate8_ctrl s0 s din
  have hdi := mode_direct_ctrl s0 s din
  have hin := mode_indexed_ctrl s0 s din
  have hex := mode_ext_ctrl s0 s din
  unfold execute
  cases hd : decode s.instr <;> simp only [hd]
  case nop => refine ⟨?_, ?_, ?_⟩ <;> first | rfl | trivial
  case illegal => refine ⟨?_, ?_, ?_⟩ <;> first | rfl | trivial
  case tap =>
    simp only [TAP]
    split_ifs <;> exact ⟨rfl, rfl, rfl⟩
  case tpa =>
    simp only [TPA]
    split_ifs <;> exact ⟨rfl, rfl, rfl⟩
  case in_de_x =>
    simp only [IN_DE_X]
    split_ifs <;> exact ⟨rfl, rfl, rfl⟩
  case cl_se_v =>
    simp only [CL_SE_V]
    split_ifs <;> exact ⟨rfl, rfl, rfl⟩
  case cl_se_c =>
    simp only [CL_SE_C]
    split_ifs <;> exact ⟨rfl, rfl, rfl⟩
  case cl_se_i =>
    simp only [CL_SE_I]
    split_ifs <;> exact ⟨rfl, rfl, rfl⟩
  case br =>
    simp only [BR]
    split_ifs <;> exact ⟨him.1, him.2.1, him.2.2⟩
  case alu2 =>
    simp only [ALU2]
    have h2e := read_byte_ctrl (mode_ext s0 s din).1 s 2 (mode_ext s0 s din).2
    have h2i := read_byte_ctrl (mode_indexed s0 s din).1 s 3 (mode_indexed s0 s din).2
    split_ifs <;>
      first
        | exact ⟨rfl, rfl, rfl⟩
        | exact ⟨(h2e.1).trans hex.1, (h2e.2.1).trans hex.2.1,
                 (h2e.2.2).trans hex.2.2⟩
        | exact ⟨(h2i.1).trans hin.1, (h2i.2.1).trans hin.2.1,
                 (h2i.2.2).trans hin.2.2⟩
  case jmp =>
    simp only [JMP]
    split_ifs <;>
      first
        | exact ⟨rfl, rfl, rfl⟩
        | exact ⟨hex.1, hex.2.1, hex.2.2⟩
        | exact ⟨hin.1, hin.2.1, hin.2.2⟩
  case alu =>
    simp only [ALU]
    have h1d := read_byte_ctrl (mode_direct s0 s din).1 s 1 (mode_direct s0 s din).2
    have h2e := read_byte_ctrl (mode_ext s0 s din).1 s 2 (mode_ext s0 s din).2
    have h3i := read_byte_ctrl (mode_indexed s0 s din).1 s 3 (mode_indexed s0 s din).2
    split_ifs <;>
      first
        | exact ⟨rfl, rfl, rfl⟩
        | exact ⟨(h1d.1).trans hdi.1, (h1d.2.1).trans hdi.2.1,
                 (h1d.2.2).trans hdi.2.2⟩
        | exact ⟨(h2e.1).trans hex.1, (h2e.2.1).trans hex.2.1,
                 (h2e.2.2).trans hex.2.2⟩
        | exact ⟨him.1, him.2.1, him.2.2⟩
        | exact ⟨(h3i.1).trans hin.1, (h3i.2.1).trans hin.2.1,
                 (h3i.2.2).trans hin.2.2⟩
  case sta =>
    simp only [STA]
    split_ifs <;>
      first
        | exact ⟨rfl, rfl, rfl⟩
        | exact ⟨hdi.1, hdi.2.1, hdi.2.2⟩
        | exact ⟨hex.1, hex.2.1, hex.2.2⟩
        | exact ⟨hin.1, hin.2.1, hin.2.2⟩

theorem inv_step (alu : ALUFn) (mem : Nat → Nat) (s : State) (h : Inv s) :
    Inv (step alu mem s) := by
  obtain ⟨hi, hr, hrc, h3⟩ := h
  by_cases h0 : s.reset_state = 0
  · have hc : s.cycle = 0 := by have := hrc (by omega); omega
    have e : step alu mem s =
        { s with VMA := true, cycle := (s.cycle + 1) % 16, Addr := 0xFFFE,
                 RW := true, reset_state := 1 } := by
      simp only [step]
      rw [if_pos h0]
    rw [e]
    refine ⟨hi, by norm_num, ?_, ?_⟩
    · intro _
      show (s.cycle + 1) % 16 = 1
      omega
    · intro hh
      exact absurd (show (1 : Nat) = 3 from hh) (by norm_num)
  · by_cases h1 : s.reset_state = 1
    · have hc : s.cycle = 1 := by have := hrc (by omega); omega
      have e : step alu mem s =
          { s with VMA := true, cycle := (s.cycle + 1) % 16, Addr := 0xFFFF,
                   RW := true, tmp8 := w8 (mem s.Addr), reset_state := 2 } := by
        simp only [step]
        rw [if_neg h0, if_pos h1]
      rw [e]
      refine ⟨hi, by norm_num, ?_, ?_⟩
      · intro _
        show (s.cycle + 1) % 16 = 2
        omega
      · intro hh
        exact absurd (show (2 : Nat) = 3 from hh) (by norm_num)
    · by_cases h2 : s.reset_state = 2
      · have e : step alu mem s =
            { s with VMA := true, reset_state := 3,
                     pc := w16 (w16 (s.tmp8 * 256 + w8 (mem s.Addr))),
                     Addr := w16 (w16 (s.tmp8 * 256 + w8 (mem s.Addr))),
                     RW := true, cycle := 0 } := by
          simp only [step]
          rw [if_neg h0, if_neg h1, if_pos h2]
        rw [e]
        refine ⟨hi, by norm_num, ?_, ?_⟩
        · intro hh
          exact absurd (show (3 : Nat) < 3 from hh) (by norm_num)
        · intro _
          exact ⟨Nat.zero_le _, fun _ => rfl⟩
      · have hr3 : s.reset_state = 3 := by omega
        by_cases hcy : s.cycle = 0
        · rw [step_fetch alu mem s hcy hr3]
          refine ⟨w8_lt _, ?_, ?_, ?_⟩
          · show s.reset_state ≤ 3
            omega
          · intro hh
            exact absurd (show s.reset_state < 3 from hh) (by omega)
          · intro _
            constructor
            · show 1 ≤ endCycle (w8 (mem s.Addr))
              exact endCycle_pos _ (w8_lt _)
            · intro hh
              exact absurd (show (1 : Nat) = 0 from hh) (by norm_num)
        · have e := step_exec alu mem s hcy hr3
          have hiso := execute_ends alu
            { s with VMA := true, cycle := (s.cycle + 1) % 16 } s (w8 (mem s.Addr))
          have hfr := execute_frame alu
            { s with VMA := true, cycle := (s.cycle + 1) % 16 } s (w8 (mem s.Addr))
          have hce : s.cycle ≤ endCycle s.instr := ((h3 hr3).1)
          have hle6 := endCycle_le s.instr hi
          rcases hx : execute alu { s with VMA := true, cycle := (s.cycle + 1) % 16 }
              s (w8 (mem s.Addr)) with ⟨sx, opt⟩
          rw [hx] at hiso hfr e
          simp only at hiso hfr e
          obtain ⟨hfc, hfr2, hfi⟩ := hfr
          rcases opt with _ | av
          · -- no end-of-instruction this cycle
            have hnotend : endsAt s.instr s.cycle = false := by
              simpa using hiso.symm
            have hlt : s.cycle < endCycle s.instr := by
              rcases Nat.lt_or_ge s.cycle (endCycle s.instr) with hlt | hge
              · exact hlt
              · have heq : s.cycle = endCycle s.instr := by omega
                have hat := endsAt_endCycle s.instr hi
                rw [← heq] at hat
                rw [hat] at hnotend
                exact absurd hnotend (by simp)
            have e2 : step alu mem s = sx := by rw [e]
            rw [e2]
            refine ⟨?_, ?_, ?_, ?_⟩
            · rw [hfi]; exact hi
            · rw [hfr2]; omega
            · intro hh
              rw [hfr2] at hh
              exact absurd hh (by omega)
            · intro _
              constructor
              · rw [hfc, hfi]
                omega
              · intro hh
                rw [hfc] at hh
                omega
          · -- end-of-instruction asserted
            have e2 : step alu mem s =
                { sx with pc := w16 av, Addr := w16 av, RW := true, cycle := 0 } := by
              rw [e]
            rw [e2]
            refine ⟨?_, ?_, ?_, ?_⟩
            · show sx.instr < 256
              rw [hfi]; exact hi
            · show sx.reset_state ≤ 3
              rw [hfr2]; omega
            · intro hh
              have hh2 : sx.reset_state < 3 := hh
              rw [hfr2] at hh2
              exact absurd hh2 (by omega)
            · intro _
              exact ⟨Nat.zero_le _, fun _ => rfl⟩

theorem reachable_inv (alu : ALUFn) (mem : Nat → Nat) (s : State)
    (h : Reachable alu mem s) : Inv s := by
  induction h with
  | init a b x sp pc instr tmp8 tmp16 ccs =>
    refine ⟨w8_lt _, by norm_num [resetInit], fun _ => rfl, ?_⟩
    intro hh
    exact absurd (show (0 : Nat) = 3 from hh) (by norm_num)
  | next _ ih => exact inv_step _ _ _ ih


/-- C9: in every reachable state in which the reset sequencer is terminal
(reset_state = 3) and the cycle counter is 0, the address bus equals the
program counter, so each fetch samples the opcode at the program counter's
address: every path that sets the cycle counter to 0 (end-of-instruction and
the final reset state) loads the address register and the program counter
with the same value. -/
theorem fetch_addr_eq_pc_spec (alu : ALUFn) (mem : Nat → Nat) (s : State)
    (h : Reachable alu mem s) (h3 : s.reset_state = 3) (h0 : s.cycle = 0) :
    s.Addr = s.pc :=
  ((reachable_inv alu mem s h).2.2.2 h3).2 h0

/-- C10: in every reachable state the per-instruction cycle counter is at
most 6: every opcode (including the unrecognized-opcode default) asserts
end-of-instruction at its ending cycle, which is at most 6, so the 4-bit
cycle counter never wraps and every instruction completes in a bounded
number of clock ticks. -/
theorem cycle_bound_spec (alu : ALUFn) (mem : Nat → Nat) :
    (∀ i, i < 256 → endsAt i (endCycle i) = true ∧ endCycle i ≤ 6)
    ∧ ∀ s : State, Reachable alu mem s → s.cycle ≤ 6 := by
  constructor
  · intro i hi
    exact ⟨endsAt_endCycle i hi, endCycle_le i hi⟩
  · intro s h
    obtain ⟨hi, hr, hrc, h3⟩ := reachable_inv alu mem s h
    by_cases hrs : s.reset_state = 3
    · have h1 := (h3 hrs).1
      have h2 := endCycle_le s.instr hi
      omega
    · have := hrc (by omega)
      omega

theorem fetch_addr_eq_pc_spec_witness :
    (step specALU memZero (step specALU memZero (step specALU memZero
      (resetInit 0 0 0 0 0 0 0 0 0)))).Addr =
    (step specALU memZero (step specALU memZero (step specALU memZero
      (resetInit 0 0 0 0 0 0 0 0 0)))).pc :=
  fetch_addr_eq_pc_spec specALU memZero _
    (Reachable.next (Reachable.next (Reachable.next
      (Reachable.init 0 0 0 0 0 0 0 0 0))))
    (by decide) (by decide)

theorem cycle_bound_spec_witness :
    (resetInit 0 0 0 0 0 0 0 0 0).cycle ≤ 6 :=
  (cycle_bound_spec specALU memZero).2 _ (Reachable.init 0 0 0 0 0 0 0 0 0)

end N6800
